import Mathlib

/-!
# Verification of the live voice session pipeline (`src/hooks/useLiveAPI.ts`)

Shallow embedding of the `useLiveAPI` React hook.  The hook's mutable refs
and React state are collected into one record, `HookState`; each callback of
the hook (`stopSession`, the success path of `startSession`, and the four
transport callbacks `onopen`/`onmessage`/`onerror`/`onclose`) becomes a pure
state-transition function.  Time (the output `AudioContext` clock and buffer
durations) is modelled by `ℚ`.

Besides the fields visibly held by the hook
(`isActive`, `transcripts`, `error`, `audioContextRef`, `nextStartTimeRef`,
`sourcesRef`, `sessionRef`) the record carries trace fields that count the
externally visible side effects of the code, so that claims about resource
acquisition and release can be stated:
* `micAcquired` counts `navigator.mediaDevices.getUserMedia` calls,
* `contextsCreated` counts `new AudioContext(...)` constructions,
* `contextsClosed` counts `AudioContext.close()` calls (the source contains
  none, so no transition increments it),
* `micReleased` counts `MediaStreamTrack.stop()` calls (the source contains
  none, so no transition increments it),
* `sessionsOpened` counts `ai.live.connect` calls,
* `startedAt` records every `source.start(t)` call as a pair
  (source id, scheduled start time),
* `stoppedIds` records every `source.stop()` call.
-/

/-- The inbound transport message, as probed by the `onmessage` handler:
`message.serverContent?.modelTurn?.parts[0]?.inlineData?.data` (modelled by
the duration of the decoded audio, since only presence and decoded duration
matter downstream), `serverContent?.interrupted`,
`serverContent?.outputTranscription?.text` and
`serverContent?.inputTranscription?.text`. -/
structure ServerMessage where
  audioDur : Option ℚ
  interrupted : Bool
  outputTranscription : Option String
  inputTranscription : Option String
  deriving DecidableEq, Repr

/-- The state held by one instance of the `useLiveAPI` hook, together with
side-effect trace fields (see the file header). -/
structure HookState where
  isActive : Bool
  transcripts : List String
  error : Option String
  hasAudioContext : Bool
  nextStartTime : ℚ
  sources : List ℕ
  hasSession : Bool
  micAcquired : ℕ
  micReleased : ℕ
  contextsCreated : ℕ
  contextsClosed : ℕ
  sessionsOpened : ℕ
  startedAt : List (ℕ × ℚ)
  stoppedIds : List ℕ
  deriving DecidableEq, Repr

/-- The hook's initial state: `useState(false)`, `useState([])`,
`useState(null)`, `useRef(null)`, `useRef(0)`, `useRef(new Set())`,
`useRef(null)`. -/
def initialState : HookState :=
  { isActive := false
    transcripts := []
    error := none
    hasAudioContext := false
    nextStartTime := 0
    sources := []
    hasSession := false
    micAcquired := 0
    micReleased := 0
    contextsCreated := 0
    contextsClosed := 0
    sessionsOpened := 0
    startedAt := []
    stoppedIds := [] }

/-- `stopSession` (lines 16–21): the `if (sessionRef.current)` branch holds
only a comment, so the whole body is `setIsActive(false)`.  Nothing else in
the state is touched. -/
def stopSession (s : HookState) : HookState :=
  { s with isActive := false }

/-- The success path of `startSession` (lines 23–110): `setError(null)`,
construction of the 16 kHz input and 24 kHz output `AudioContext`s stored in
`audioContextRef`, `getUserMedia`, `ai.live.connect`, and
`sessionRef.current := await sessionPromise`.  There is no check of
`isActive` or any other state before these acquisitions.  `setIsActive(true)`
happens only later, inside the `onopen` callback. -/
def startSession (s : HookState) : HookState :=
  { s with
    error := none
    hasAudioContext := true
    contextsCreated := s.contextsCreated + 2
    micAcquired := s.micAcquired + 1
    sessionsOpened := s.sessionsOpened + 1
    hasSession := true }

/-- The `onopen` callback (lines 37–61): `setIsActive(true)` and the wiring
of the capture script processor (which holds no state modelled here). -/
def onopen (s : HookState) : HookState :=
  { s with isActive := true }

/-- The `onmessage` callback (lines 62–94), one invocation, run to
completion.  `now` is `output.currentTime` read at line 66 and `freshId`
identifies the `AudioBufferSourceNode` created at line 69.

Audio block (lines 63–80): guarded by
`base64Audio && audioContextRef.current`; sets
`nextStartTimeRef.current = max(nextStartTimeRef.current, output.currentTime)`,
starts the new source at that value, advances `nextStartTimeRef.current` by
the buffer's duration and adds the source to `sourcesRef`.

Interruption block (lines 82–86): guarded by `serverContent?.interrupted`;
calls `s.stop()` on every tracked source, clears `sourcesRef` and resets
`nextStartTimeRef.current` to `0`.

Transcription blocks (lines 88–93): append `"AI: "`- and `"You: "`-tagged
entries to `transcripts`. -/
def onmessage (m : ServerMessage) (now : ℚ) (freshId : ℕ) (s : HookState) :
    HookState :=
  let s1 :=
    match m.audioDur with
    | some d =>
      if s.hasAudioContext then
        let startTime := max s.nextStartTime now
        { s with
          nextStartTime := startTime + d
          sources := freshId :: s.sources
          startedAt := s.startedAt ++ [(freshId, startTime)] }
      else s
    | none => s
  let s2 :=
    if m.interrupted then
      { s1 with
        sources := []
        nextStartTime := 0
        stoppedIds := s1.stoppedIds ++ s1.sources }
    else s1
  let s3 :=
    match m.outputTranscription with
    | some t => { s2 with transcripts := s2.transcripts ++ ["AI: " ++ t] }
    | none => s2
  match m.inputTranscription with
  | some t => { s3 with transcripts := s3.transcripts ++ ["You: " ++ t] }
  | none => s3

/-- The `ended` listener registered on each scheduled source (lines 73–75):
`sourcesRef.current.delete(source)`. -/
def onSourceEnded (id : ℕ) (s : HookState) : HookState :=
  { s with sources := s.sources.erase id }

/-- The `onerror` callback (lines 95–99): records the fixed error string and
`setIsActive(false)`.  No resource is touched. -/
def onerror (s : HookState) : HookState :=
  { s with
    error := some "Connection failed. Check your microphone and API configuration."
    isActive := false }

/-- The `onclose` callback (line 100): `setIsActive(false)` only. -/
def onclose (s : HookState) : HookState :=
  { s with isActive := false }

/-- A message carrying only an inbound audio chunk of duration `d`. -/
def audioMsg (d : ℚ) : ServerMessage :=
  { audioDur := some d, interrupted := false
    outputTranscription := none, inputTranscription := none }

/-- A message carrying only the interruption marker. -/
def interruptMsg : ServerMessage :=
  { audioDur := none, interrupted := true
    outputTranscription := none, inputTranscription := none }

/-- A message carrying only an assistant-side transcript fragment. -/
def outputTranscriptMsg (t : String) : ServerMessage :=
  { audioDur := none, interrupted := false
    outputTranscription := some t, inputTranscription := none }

/-- Folding `onmessage` over a list of pure audio messages: each list entry
is `(now, d, freshId)` — the output-clock reading at handling time, the
decoded chunk's duration, and the id of the source node created for it. -/
def runAudioMsgs (chunks : List (ℚ × ℚ × ℕ)) (s : HookState) : HookState :=
  match chunks with
  | [] => s
  | (now, d, id) :: rest => runAudioMsgs rest (onmessage (audioMsg d) now id s)

/-- The sequence of `(source id, start time)` pairs produced by handling the
chunk list `chunks` when the playback cursor starts at `next`: each chunk is
started at `max next now` and the cursor advances to that start plus the
chunk's duration, exactly as in lines 66–78. -/
def scheduleTrace (next : ℚ) : List (ℚ × ℚ × ℕ) → List (ℕ × ℚ)
  | [] => []
  | (now, d, id) :: rest =>
      (id, max next now) :: scheduleTrace (max next now + d) rest

/-! ## PCM16 capture encoding (`onaudioprocess`, lines 42–52)

`int16[i] = inputData[i] * 32768` stores a JS number into an `Int16Array`,
which by the ECMAScript `ToInt16` conversion truncates toward zero, reduces
modulo 2^16 and reinterprets the result as signed.  The frame payload is
`new Uint8Array(int16.buffer)`: the little-endian byte pairs of those
16-bit values.  Float samples are idealised as exact rationals. -/

/-- ECMAScript `ToIntegerOrInfinity`: truncation toward zero. -/
def ratTrunc (x : ℚ) : ℤ := if 0 ≤ x then ⌊x⌋ else ⌈x⌉

/-- ECMAScript `ToInt16` applied to `sample * 32768` (line 47): truncate
toward zero, reduce modulo 2^16, reinterpret as a signed 16-bit value.
There is no clamping anywhere in this path. -/
def toInt16 (x : ℚ) : ℤ :=
  let m := ratTrunc (x * 32768) % 65536
  if 32768 ≤ m then m - 65536 else m

/-- The little-endian byte pair of a signed 16-bit value, as read back by
`new Uint8Array(int16.buffer)` (line 50). -/
def int16LEBytes (v : ℤ) : List ℕ :=
  [(v % 65536).toNat % 256, (v % 65536).toNat / 256]

/-- The byte payload one capture block is encoded to before base64
transport encoding (lines 43–50). -/
def encodePCM16 (samples : List ℚ) : List ℕ :=
  samples.flatMap fun x => int16LEBytes (toInt16 x)

/-- A concrete session state right after a successful `startSession` whose
transport has confirmed open: the state every witness below starts from. -/
def activeState : HookState := onopen (startSession initialState)

/-! ## Helper lemmas -/

/-- One `onmessage` invocation on a pure audio message, when the audio
context is present, performs exactly the scheduling step of lines 66–79. -/
theorem onmessage_audio (d now : ℚ) (id : ℕ) (s : HookState)
    (h : s.hasAudioContext = true) :
    onmessage (audioMsg d) now id s =
      { s with
        nextStartTime := max s.nextStartTime now + d
        sources := id :: s.sources
        startedAt := s.startedAt ++ [(id, max s.nextStartTime now)] } := by
  simp [onmessage, audioMsg, h]

/-- Running a list of pure audio messages appends exactly the schedule
trace of the chunk list to the `source.start` log. -/
theorem runAudioMsgs_startedAt (chunks : List (ℚ × ℚ × ℕ)) (s : HookState)
    (h : s.hasAudioContext = true) :
    (runAudioMsgs chunks s).startedAt
      = s.startedAt ++ scheduleTrace s.nextStartTime chunks := by
  induction chunks generalizing s with
  | nil => simp [runAudioMsgs, scheduleTrace]
  | cons c rest ih =>
    obtain ⟨now, d, id⟩ := c
    rw [runAudioMsgs, onmessage_audio d now id s h, scheduleTrace]
    rw [ih _ (by simp [h])]
    simp

/-- Every start time in a schedule trace is at least the initial cursor. -/
theorem scheduleTrace_head_ge (next : ℚ) (chunks : List (ℚ × ℚ × ℕ)) :
    ∀ p ∈ scheduleTrace next chunks, next ≤ p.2 ∨ p ∈
      (scheduleTrace next chunks).tail := by
  intro p hp
  cases chunks with
  | nil => simp [scheduleTrace] at hp
  | cons c rest =>
    obtain ⟨now, d, id⟩ := c
    rw [scheduleTrace] at hp ⊢
    rcases List.mem_cons.mp hp with h | h
    · exact Or.inl (h ▸ le_max_left _ _)
    · exact Or.inr (by simpa using h)

/-- Consecutive scheduled chunks do not overlap: pairing each start time
with its chunk's duration, every start is at least the previous start plus
the previous duration. -/
theorem scheduleTrace_chain (next : ℚ) (chunks : List (ℚ × ℚ × ℕ)) :
    List.Chain' (fun p q => p.1 + p.2 ≤ q.1)
      (((scheduleTrace next chunks).map Prod.snd).zip
        (chunks.map fun c => c.2.1)) := by
  induction chunks generalizing next with
  | nil => simp [scheduleTrace]
  | cons c rest ih =>
    obtain ⟨now, d, id⟩ := c
    rw [scheduleTrace]
    simp only [List.map_cons, List.zip_cons_cons]
    refine List.chain'_cons'.mpr ⟨?_, ih _⟩
    intro q hq
    cases rest with
    | nil => simp [scheduleTrace] at hq
    | cons c2 rest2 =>
      obtain ⟨now2, d2, id2⟩ := c2
      rw [scheduleTrace] at hq
      simp only [List.map_cons, List.zip_cons_cons, List.head?_cons,
        Option.mem_def, Option.some.injEq] at hq
      subst hq
      exact le_max_left _ _

/-- With nonnegative durations, the scheduled start times are
non-decreasing. -/
theorem scheduleTrace_mono (next : ℚ) (chunks : List (ℚ × ℚ × ℕ))
    (hd : ∀ c ∈ chunks, 0 ≤ c.2.1) :
    List.Chain' (· ≤ ·) ((scheduleTrace next chunks).map Prod.snd) := by
  induction chunks generalizing next with
  | nil => simp [scheduleTrace]
  | cons c rest ih =>
    obtain ⟨now, d, id⟩ := c
    rw [scheduleTrace]
    simp only [List.map_cons]
    refine List.chain'_cons'.mpr ⟨?_, ih _ fun c hc => hd c (List.mem_cons_of_mem _ hc)⟩
    intro q hq
    cases rest with
    | nil => simp [scheduleTrace] at hq
    | cons c2 rest2 =>
      obtain ⟨now2, d2, id2⟩ := c2
      rw [scheduleTrace] at hq
      simp only [List.map_cons, List.head?_cons, Option.mem_def,
        Option.some.injEq] at hq
      subst hq
      have h0 : (0:ℚ) ≤ d := hd (now, d, id) (by simp)
      calc max next now ≤ max next now + d := by linarith
        _ ≤ max (max next now + d) now2 := le_max_left _ _

/-! ## Claims -/

/-- C1: For every sequence of decoded inbound audio chunks processed with no
intervening interruption, each chunk is scheduled at
`startAt = max(nextStartTime, outputClock.now())` and `nextStartTime` is
then set to `startAt + chunk.duration`; hence the computed start times are
non-decreasing and `start(i+1) ≥ start(i) + d_i` (no two scheduled buffers
overlap). -/
theorem scheduling_no_overlap (s : HookState) (now d : ℚ) (id : ℕ)
    (chunks : List (ℚ × ℚ × ℕ))
    (hctx : s.hasAudioContext = true)
    (hd : ∀ c ∈ chunks, 0 ≤ c.2.1) :
    (onmessage (audioMsg d) now id s).startedAt
        = s.startedAt ++ [(id, max s.nextStartTime now)]
    ∧ (onmessage (audioMsg d) now id s).nextStartTime
        = max s.nextStartTime now + d
    ∧ (runAudioMsgs chunks s).startedAt
        = s.startedAt ++ scheduleTrace s.nextStartTime chunks
    ∧ List.Chain' (fun p q => p.1 + p.2 ≤ q.1)
        (((scheduleTrace s.nextStartTime chunks).map Prod.snd).zip
          (chunks.map fun c => c.2.1))
    ∧ List.Chain' (· ≤ ·)
        ((scheduleTrace s.nextStartTime chunks).map Prod.snd) := by
  refine ⟨?_, ?_, runAudioMsgs_startedAt chunks s hctx,
    scheduleTrace_chain _ _, scheduleTrace_mono _ _ hd⟩
  · rw [onmessage_audio d now id s hctx]
  · rw [onmessage_audio d now id s hctx]

/-- Witness for C1 at the spec's two-chunk scenario (integer-scaled). -/
theorem scheduling_no_overlap_witness :
    (activeState.hasAudioContext = true
      ∧ ∀ c ∈ ([(0, 1, 0), (0, 2, 1)] : List (ℚ × ℚ × ℕ)), 0 ≤ c.2.1)
    ∧ ((onmessage (audioMsg 1) 0 0 activeState).startedAt
        = activeState.startedAt ++ [(0, max activeState.nextStartTime 0)]
    ∧ (onmessage (audioMsg 1) 0 0 activeState).nextStartTime
        = max activeState.nextStartTime 0 + 1
    ∧ (runAudioMsgs [(0, 1, 0), (0, 2, 1)] activeState).startedAt
        = activeState.startedAt
          ++ scheduleTrace activeState.nextStartTime [(0, 1, 0), (0, 2, 1)]
    ∧ List.Chain' (fun p q => p.1 + p.2 ≤ q.1)
        (((scheduleTrace activeState.nextStartTime
            [(0, 1, 0), (0, 2, 1)]).map Prod.snd).zip
          (([(0, 1, 0), (0, 2, 1)] : List (ℚ × ℚ × ℕ)).map fun c => c.2.1))
    ∧ List.Chain' (· ≤ ·)
        ((scheduleTrace activeState.nextStartTime
          [(0, 1, 0), (0, 2, 1)]).map Prod.snd)) :=
  ⟨⟨rfl, by norm_num⟩,
    scheduling_no_overlap activeState 0 1 0 [(0, 1, 0), (0, 2, 1)] rfl
      (by norm_num)⟩

/-- C2: On an interruption signal, every in-flight handle is stopped, the
in-flight set is cleared, and `nextStartTime` is reset to zero; a chunk
arriving immediately afterwards is scheduled at the then-current output
clock time. -/
theorem interrupt_resets_clock (s : HookState) (tInt now d : ℚ)
    (iId freshId : ℕ)
    (h0 : 0 ≤ now) (hctx : s.hasAudioContext = true) :
    (onmessage interruptMsg tInt iId s).sources = []
    ∧ (onmessage interruptMsg tInt iId s).nextStartTime = 0
    ∧ (onmessage interruptMsg tInt iId s).stoppedIds
        = s.stoppedIds ++ s.sources
    ∧ (onmessage (audioMsg d) now freshId
        (onmessage interruptMsg tInt iId s)).startedAt
        = (onmessage interruptMsg tInt iId s).startedAt ++ [(freshId, now)] := by
  have h1 : onmessage interruptMsg tInt iId s =
      { s with
        sources := []
        nextStartTime := 0
        stoppedIds := s.stoppedIds ++ s.sources } := by
    simp [onmessage, interruptMsg]
  rw [h1]
  refine ⟨rfl, rfl, rfl, ?_⟩
  rw [onmessage_audio d now freshId _ (by simp [hctx])]
  simp [max_eq_right h0]

/-- Witness for C2: interruption while one source is in flight, then a
chunk at output-clock time 2. -/
theorem interrupt_resets_clock_witness :
    ((0:ℚ) ≤ 2
      ∧ (onmessage (audioMsg 1) 0 0 activeState).hasAudioContext = true)
    ∧ ((onmessage interruptMsg 0 9 (onmessage (audioMsg 1) 0 0 activeState)).sources = []
    ∧ (onmessage interruptMsg 0 9 (onmessage (audioMsg 1) 0 0 activeState)).nextStartTime = 0
    ∧ (onmessage interruptMsg 0 9 (onmessage (audioMsg 1) 0 0 activeState)).stoppedIds
        = (onmessage (audioMsg 1) 0 0 activeState).stoppedIds
          ++ (onmessage (audioMsg 1) 0 0 activeState).sources
    ∧ (onmessage (audioMsg 2) 2 1
        (onmessage interruptMsg 0 9 (onmessage (audioMsg 1) 0 0 activeState))).startedAt
        = (onmessage interruptMsg 0 9 (onmessage (audioMsg 1) 0 0 activeState)).startedAt
          ++ [(1, 2)]) :=
  ⟨⟨by norm_num, rfl⟩,
    interrupt_resets_clock (onmessage (audioMsg 1) 0 0 activeState) 0 2 2 9 1
      (by norm_num) rfl⟩

/-- C9: A message whose interrupted flag is set leaves the in-flight set
empty and `nextStartTime` at zero even when it also carries an audio
chunk: the chunk is first scheduled and then stopped and removed within
the same handler invocation. -/
theorem interrupt_with_audio_flushes (m : ServerMessage) (d now : ℚ)
    (freshId : ℕ) (s : HookState)
    (ha : m.audioDur = some d) (hi : m.interrupted = true)
    (hctx : s.hasAudioContext = true) :
    (onmessage m now freshId s).sources = []
    ∧ (onmessage m now freshId s).nextStartTime = 0
    ∧ (freshId, max s.nextStartTime now) ∈ (onmessage m now freshId s).startedAt
    ∧ freshId ∈ (onmessage m now freshId s).stoppedIds := by
  obtain ⟨ad, intr, outT, inT⟩ := m
  simp only [ServerMessage.audioDur] at ha
  simp only [ServerMessage.interrupted] at hi
  subst ha hi
  cases outT <;> cases inT <;>
    simp [onmessage, hctx, List.mem_append]

/-- Witness for C9: one message carrying both a chunk and the interruption
flag, handled from a state with one source already in flight. -/
theorem interrupt_with_audio_flushes_witness :
    ((ServerMessage.mk (some 2) true none none).audioDur = some 2
      ∧ (ServerMessage.mk (some 2) true none none).interrupted = true
      ∧ (onmessage (audioMsg 1) 0 0 activeState).hasAudioContext = true)
    ∧ ((onmessage (ServerMessage.mk (some 2) true none none) 1 7
          (onmessage (audioMsg 1) 0 0 activeState)).sources = []
    ∧ (onmessage (ServerMessage.mk (some 2) true none none) 1 7
          (onmessage (audioMsg 1) 0 0 activeState)).nextStartTime = 0
    ∧ (7, max (onmessage (audioMsg 1) 0 0 activeState).nextStartTime 1)
        ∈ (onmessage (ServerMessage.mk (some 2) true none none) 1 7
            (onmessage (audioMsg 1) 0 0 activeState)).startedAt
    ∧ 7 ∈ (onmessage (ServerMessage.mk (some 2) true none none) 1 7
            (onmessage (audioMsg 1) 0 0 activeState)).stoppedIds) :=
  ⟨⟨rfl, rfl, rfl⟩,
    interrupt_with_audio_flushes (ServerMessage.mk (some 2) true none none)
      2 1 7 (onmessage (audioMsg 1) 0 0 activeState) rfl rfl rfl⟩

/-- Counterexample to C3: in an Active state (one mic handle, two contexts,
one session held), a second `startSession` is not rejected — it acquires a
second microphone handle, two further audio contexts and a second transport
session. -/
theorem startSession_active_side_effects_cex :
    activeState.isActive = true
    ∧ activeState.micAcquired = 1
    ∧ (startSession activeState).micAcquired = 2
    ∧ activeState.contextsCreated = 2
    ∧ (startSession activeState).contextsCreated = 4
    ∧ activeState.sessionsOpened = 1
    ∧ (startSession activeState).sessionsOpened = 2
    ∧ (startSession activeState).error = none :=
  ⟨rfl, rfl, rfl, rfl, rfl, rfl, rfl, rfl⟩

/-- C3 (amended): `startSession` performs no Active-state check at all;
called while Active it proceeds without error and acquires a second
microphone handle, a second pair of audio contexts and a second transport
session. -/
theorem startSession_no_active_guard (s : HookState)
    (h : s.isActive = true) :
    (startSession s).micAcquired = s.micAcquired + 1
    ∧ (startSession s).contextsCreated = s.contextsCreated + 2
    ∧ (startSession s).sessionsOpened = s.sessionsOpened + 1
    ∧ (startSession s).error = none
    ∧ (startSession s).isActive = true := by
  exact ⟨rfl, rfl, rfl, rfl, by simpa [startSession] using h⟩

/-- Witness for the amended C3 at the concrete Active state. -/
theorem startSession_no_active_guard_witness :
    activeState.isActive = true
    ∧ ((startSession activeState).micAcquired = activeState.micAcquired + 1
    ∧ (startSession activeState).contextsCreated = activeState.contextsCreated + 2
    ∧ (startSession activeState).sessionsOpened = activeState.sessionsOpened + 1
    ∧ (startSession activeState).error = none
    ∧ (startSession activeState).isActive = true) :=
  ⟨rfl, startSession_no_active_guard activeState rfl⟩

/-- Counterexample to C4: a chunk handled after `stopSession` is not
dropped — `stopSession` does not null `audioContextRef`, so the guard at
line 64 still passes: the source is scheduled and added to the in-flight
set and `nextStartTime` advances. -/
theorem chunk_after_stop_scheduled_cex :
    (stopSession activeState).isActive = false
    ∧ activeState.sources = []
    ∧ activeState.nextStartTime = 0
    ∧ activeState.startedAt = []
    ∧ (onmessage (audioMsg 1) 0 5 (stopSession activeState)).sources = [5]
    ∧ (onmessage (audioMsg 1) 0 5 (stopSession activeState)).startedAt = [(5, 0)]
    ∧ (onmessage (audioMsg 1) 0 5 (stopSession activeState)).nextStartTime = 1 := by
  refine ⟨rfl, rfl, rfl, rfl, ?_, ?_, ?_⟩ <;>
    simp [onmessage, audioMsg, stopSession, activeState, onopen, startSession,
      initialState]

/-- C4 (amended): a chunk arriving after `stopSession` is scheduled exactly
as if the session were still live: `stopSession` leaves `audioContextRef`
set, so the in-flight set grows, the start is logged and `nextStartTime`
advances; nothing is dropped. -/
theorem chunk_after_stop_still_scheduled (s : HookState) (now d : ℚ) (id : ℕ)
    (hctx : s.hasAudioContext = true) :
    (stopSession s).hasAudioContext = true
    ∧ (onmessage (audioMsg d) now id (stopSession s)).sources = id :: s.sources
    ∧ (onmessage (audioMsg d) now id (stopSession s)).startedAt
        = s.startedAt ++ [(id, max s.nextStartTime now)]
    ∧ (onmessage (audioMsg d) now id (stopSession s)).nextStartTime
        = max s.nextStartTime now + d := by
  have h : (stopSession s).hasAudioContext = true := by
    simpa [stopSession] using hctx
  rw [onmessage_audio d now id _ h]
  exact ⟨h, rfl, rfl, rfl⟩

/-- Witness for the amended C4. -/
theorem chunk_after_stop_still_scheduled_witness :
    activeState.hasAudioContext = true
    ∧ ((stopSession activeState).hasAudioContext = true
    ∧ (onmessage (audioMsg 1) 0 5 (stopSession activeState)).sources
        = 5 :: activeState.sources
    ∧ (onmessage (audioMsg 1) 0 5 (stopSession activeState)).startedAt
        = activeState.startedAt ++ [(5, max activeState.nextStartTime 0)]
    ∧ (onmessage (audioMsg 1) 0 5 (stopSession activeState)).nextStartTime
        = max activeState.nextStartTime 0 + 1) :=
  ⟨rfl, chunk_after_stop_still_scheduled activeState 0 1 5 rfl⟩

/-- Counterexample to C5: after `startSession` acquired two contexts and the
mic, the `stopSession` exit path closes no context, stops no media track and
leaves both the context pair and the transport session held. -/
theorem stop_releases_nothing_cex :
    activeState.contextsCreated = 2
    ∧ activeState.micAcquired = 1
    ∧ (stopSession activeState).contextsClosed = 0
    ∧ (stopSession activeState).micReleased = 0
    ∧ (stopSession activeState).hasAudioContext = true
    ∧ (stopSession activeState).hasSession = true
    ∧ (onerror activeState).contextsClosed = 0
    ∧ (onclose activeState).contextsClosed = 0 :=
  ⟨rfl, rfl, rfl, rfl, rfl, rfl, rfl, rfl⟩

/-- C5 (amended): no exit path releases anything.  `stopSession`, `onerror`
and `onclose` each leave the audio-context pair, the microphone handle and
the transport session exactly as they were: the source contains no
`AudioContext.close()`, no `MediaStreamTrack.stop()` and no session close
call. -/
theorem exit_paths_release_nothing (s : HookState) :
    (stopSession s).hasAudioContext = s.hasAudioContext
    ∧ (stopSession s).hasSession = s.hasSession
    ∧ (stopSession s).contextsClosed = s.contextsClosed
    ∧ (stopSession s).micReleased = s.micReleased
    ∧ (onerror s).hasAudioContext = s.hasAudioContext
    ∧ (onerror s).hasSession = s.hasSession
    ∧ (onerror s).contextsClosed = s.contextsClosed
    ∧ (onerror s).micReleased = s.micReleased
    ∧ (onclose s).hasAudioContext = s.hasAudioContext
    ∧ (onclose s).hasSession = s.hasSession
    ∧ (onclose s).contextsClosed = s.contextsClosed
    ∧ (onclose s).micReleased = s.micReleased :=
  ⟨rfl, rfl, rfl, rfl, rfl, rfl, rfl, rfl, rfl, rfl, rfl, rfl⟩

/-- Counterexample to C6: after one chunk advanced the playback cursor to 1,
neither `stopSession` nor `onclose` resets it — `nextStartTime` stays 1,
not 0, on session end. -/
theorem stop_preserves_nextStartTime_cex :
    (onmessage (audioMsg 1) 0 0 activeState).nextStartTime = 1
    ∧ (stopSession (onmessage (audioMsg 1) 0 0 activeState)).nextStartTime = 1
    ∧ (onclose (onmessage (audioMsg 1) 0 0 activeState)).nextStartTime = 1
    ∧ (stopSession (onmessage (audioMsg 1) 0 0 activeState)).nextStartTime ≠ 0 := by
  have h : (onmessage (audioMsg 1) 0 0 activeState).nextStartTime = 1 := by
    simp [onmessage, audioMsg, activeState, onopen, startSession, initialState]
  refine ⟨h, ?_, ?_, ?_⟩ <;> simp [stopSession, onclose, h]

/-- C6 (amended): `nextStartTime` is non-decreasing across every
non-interrupted message (for nonnegative chunk durations) and is reset to
zero by the interruption path, but it is NOT reset on session end:
`stopSession`, `onclose` and `onerror` all leave it unchanged. -/
theorem nextStartTime_monotone_reset_only_on_interrupt (m : ServerMessage)
    (now : ℚ) (id : ℕ) (s : HookState)
    (hd : ∀ d, m.audioDur = some d → 0 ≤ d)
    (hi : m.interrupted = false) :
    s.nextStartTime ≤ (onmessage m now id s).nextStartTime
    ∧ (∀ tInt iId, (onmessage interruptMsg tInt iId s).nextStartTime = 0)
    ∧ (stopSession s).nextStartTime = s.nextStartTime
    ∧ (onclose s).nextStartTime = s.nextStartTime
    ∧ (onerror s).nextStartTime = s.nextStartTime := by
  refine ⟨?_, fun tInt iId => by simp [onmessage, interruptMsg], rfl, rfl, rfl⟩
  obtain ⟨ad, intr, outT, inT⟩ := m
  simp only [ServerMessage.interrupted] at hi
  subst hi
  cases ad with
  | none => cases outT <;> cases inT <;> simp [onmessage]
  | some d =>
    have h0 : (0:ℚ) ≤ d := hd d rfl
    by_cases hc : s.hasAudioContext = true <;>
      cases outT <;> cases inT <;>
        simp [onmessage, hc] <;>
        calc s.nextStartTime ≤ max s.nextStartTime now := le_max_left _ _
          _ ≤ max s.nextStartTime now + d := by linarith

/-- Witness for the amended C6 at a pure audio message of duration 1. -/
theorem nextStartTime_monotone_witness :
    ((∀ d : ℚ, (audioMsg 1).audioDur = some d → 0 ≤ d)
      ∧ (audioMsg 1).interrupted = false)
    ∧ (activeState.nextStartTime ≤ (onmessage (audioMsg 1) 0 0 activeState).nextStartTime
    ∧ (∀ tInt iId, (onmessage interruptMsg tInt iId activeState).nextStartTime = 0)
    ∧ (stopSession activeState).nextStartTime = activeState.nextStartTime
    ∧ (onclose activeState).nextStartTime = activeState.nextStartTime
    ∧ (onerror activeState).nextStartTime = activeState.nextStartTime) :=
  ⟨⟨fun d h => by
      simp only [audioMsg, Option.some.injEq] at h
      rw [← h]; norm_num, rfl⟩,
    nextStartTime_monotone_reset_only_on_interrupt (audioMsg 1) 0 0 activeState
      (fun d h => by
        simp only [audioMsg, Option.some.injEq] at h
        rw [← h]; norm_num) rfl⟩

/-- C8: `stopSession` is idempotent — a second call yields the identical
state, raises no error, and neither call releases any resource. -/
theorem stopSession_idempotent (s : HookState) :
    stopSession (stopSession s) = stopSession s
    ∧ (stopSession s).error = s.error
    ∧ (stopSession s).contextsClosed = s.contextsClosed
    ∧ (stopSession s).micReleased = s.micReleased
    ∧ (stopSession (stopSession s)).contextsClosed = s.contextsClosed
    ∧ (stopSession (stopSession s)).micReleased = s.micReleased :=
  ⟨rfl, rfl, rfl, rfl, rfl, rfl⟩

/-- C10: `startSession` resets only the reported error; the transcript log
(and the other UI state) is left untouched, so a transcript message handled
in the new session appends to the previous session's log. -/
theorem startSession_preserves_transcripts (s : HookState) (t : String)
    (now : ℚ) (id : ℕ) :
    (startSession s).transcripts = s.transcripts
    ∧ (startSession s).error = none
    ∧ (startSession s).isActive = s.isActive
    ∧ (onmessage (outputTranscriptMsg t) now id (startSession s)).transcripts
        = s.transcripts ++ ["AI: " ++ t] := by
  refine ⟨rfl, rfl, rfl, ?_⟩
  simp [onmessage, outputTranscriptMsg, startSession]

/-- A zero sample converts to the zero 16-bit value. -/
theorem toInt16_zero : toInt16 0 = 0 := by
  norm_num [toInt16, ratTrunc]

/-- A block of `n` zero samples encodes to `2 * n` zero bytes. -/
theorem encode_replicate_zero (n : ℕ) :
    encodePCM16 (List.replicate n 0) = List.replicate (2 * n) 0 := by
  induction n with
  | zero => rfl
  | succ k ih =>
    have hz : int16LEBytes (toInt16 0) = [0, 0] := by
      rw [toInt16_zero]; rfl
    calc encodePCM16 (List.replicate (k + 1) 0)
        = int16LEBytes (toInt16 0) ++ encodePCM16 (List.replicate k 0) := by
          rw [List.replicate_succ]
          simp only [encodePCM16, List.flatMap_cons]
      _ = 0 :: 0 :: List.replicate (2 * k) 0 := by rw [hz, ih]; rfl
      _ = List.replicate (2 * (k + 1)) 0 := by
          rw [show 2 * (k + 1) = (2 * k + 1) + 1 by ring,
            List.replicate_succ, List.replicate_succ]

/-- The out-of-range sample `1.5` wraps to `-16384` instead of clipping to
`32767`: `1.5 * 32768 = 49152`, reduced modulo 2^16 and reinterpreted. -/
theorem toInt16_three_halves : toInt16 (3/2) = -16384 := by
  have h : ratTrunc (3/2 * 32768) = 49152 := by
    rw [show ((3/2 : ℚ) * 32768) = ((49152 : ℤ) : ℚ) by norm_num]
    simp only [ratTrunc]
    norm_num
  simp only [toInt16, h]
  decide

/-- The out-of-range sample `-1.5` wraps to `16384` instead of clipping to
`-32768`. -/
theorem toInt16_neg_three_halves : toInt16 (-(3/2)) = 16384 := by
  have h : ratTrunc (-(3/2) * 32768) = -49152 := by
    rw [show ((-(3/2) : ℚ) * 32768) = ((-49152 : ℤ) : ℚ) by norm_num]
    simp only [ratTrunc, Int.ceil_intCast, Int.floor_intCast, ite_self]
  simp only [toInt16, h]
  decide

/-- The wrapped value's little-endian byte pair. -/
theorem encode_three_halves : encodePCM16 [3/2] = [0, 192] := by
  simp only [encodePCM16, List.flatMap_cons, List.flatMap_nil, List.append_nil]
  rw [toInt16_three_halves]
  decide

/-- C7: PCM16 encoding scales each sample by 32768, truncates toward zero
and reduces modulo 2^16 with no clipping guard — out-of-range samples wrap
(1.5 encodes as -16384, -1.5 as 16384, never saturating, though the result
is always a genuine signed 16-bit value) — and a capture block of 4096 zero
samples encodes to exactly 8192 zero bytes. -/
theorem pcm16_truncation_wraparound :
    encodePCM16 (List.replicate 4096 0) = List.replicate 8192 0
    ∧ toInt16 (3/2) = -16384
    ∧ toInt16 (-(3/2)) = 16384
    ∧ encodePCM16 [3/2] = [0, 192]
    ∧ ∀ x : ℚ, -32768 ≤ toInt16 x ∧ toInt16 x < 32768 := by
  have h4096 := encode_replicate_zero 4096
  rw [show 2 * 4096 = 8192 by norm_num] at h4096
  refine ⟨h4096, toInt16_three_halves,
    toInt16_neg_three_halves, encode_three_halves, ?_⟩
  intro x
  simp only [toInt16]
  have h1 : (0:ℤ) ≤ ratTrunc (x * 32768) % 65536 :=
    Int.emod_nonneg _ (by norm_num)
  have h2 : ratTrunc (x * 32768) % 65536 < 65536 :=
    Int.emod_lt_of_pos _ (by norm_num)
  split <;> omega
